import Mathlib

/-!
Shallow embedding of the HabitFlow habit-tracking engine (src/app.js) and
verification of its specified properties.

Modelling conventions:
* Calendar dates are integers (days since an epoch chosen so that day 0 is a
  Sunday); `moment().day()` is `weekday`.  `moment().format('YYYY-MM-DD')`
  keys become the integer day index.
* The completion ledger `this.completions` (a JS object date → habitId →
  `{completed:true, timestamp}`) is an association list from day index to the
  list of habit ids completed on that day.  No modelled operation ever reads
  the timestamp or the `completed` flag (only key presence is tested), so an
  inner entry is represented by the habit id alone.  An empty inner list
  models an empty per-date object `{}` (which the code does create).
* JS numbers holding the derived counters (`streak`, `bestStreak`,
  `totalCompletions`) are modelled as `Int`; `Math.max` is `max`.
* Rendering, toasts, notifications, `saveData`, `confirm()` dialogs and
  `location.reload()` are presentation-layer effects with no influence on the
  engine state and are not modelled.
-/

namespace HabitFlow

/-- `moment().day()` for an integer day index: 0 = Sunday … 6 = Saturday. -/
def weekday (d : Int) : Int := d % 7

/-- A habit record as built by `addHabit` / stored in `this.habits`.
`description`, `icon`, `color`, `reminderTime` are display metadata never read
by the engine logic and are omitted. -/
structure Habit where
  id : Nat
  name : String
  category : String
  target : Int
  frequency : String
  selectedDays : List Int
  createdAt : Int
  streak : Int
  bestStreak : Int
  totalCompletions : Int
deriving Repr, DecidableEq

/-- `this.completions`: date → set of completed habit ids. -/
abbrev Ledger := List (Int × List Nat)

/-- The inner object `this.completions[date]`, `[]` when the date key is
absent (reads of an absent key behave like an empty object). -/
def entriesOn (L : Ledger) (d : Int) : List Nat :=
  ((L.find? (fun p => p.1 == d)).map Prod.snd).getD []

/-- Whether the date key is present in the ledger (JS: `!!this.completions[date]`,
distinguishing an absent date from a present-but-empty object). -/
def hasDate (L : Ledger) (d : Int) : Bool :=
  (L.find? (fun p => p.1 == d)).isSome

/-- Truthiness of `this.completions[date] && this.completions[date][habitId]`. -/
def isCompleted (L : Ledger) (d : Int) (hid : Nat) : Bool :=
  (entriesOn L d).contains hid

/-- `if (!this.completions[today]) this.completions[today] = {}`. -/
def ensureDate (L : Ledger) (d : Int) : Ledger :=
  if hasDate L d then L else L ++ [(d, [])]

/-- `this.completions[today][habitId] = {completed: true, ...}` (a no-op on
dates whose key is absent, matching a write through a missing object being
impossible in the modelled flow: the code ensures the key first). -/
def setCompleted (L : Ledger) (d : Int) (hid : Nat) : Ledger :=
  L.map (fun p => if p.1 == d then (p.1, if p.2.contains hid then p.2 else hid :: p.2) else p)

/-- `delete this.completions[today][habitId]`. -/
def removeCompleted (L : Ledger) (d : Int) (hid : Nat) : Ledger :=
  L.map (fun p => if p.1 == d then (p.1, p.2.filter (fun h => h ≠ hid)) else p)

/-- `this.habits.find(h => h.id === habitId)` followed by in-place mutation of
the found record: rewrite the first habit whose id matches. -/
def replaceFirst (hs : List Habit) (hid : Nat) (f : Habit → Habit) : List Habit :=
  match hs with
  | [] => []
  | h :: t => if h.id == hid then f h :: t else h :: replaceFirst t hid f

/-- The `while (true)` loop body of `updateStreak`, with explicit fuel: walk
backward from `d`, counting consecutive completed days, stopping at the first
day with no completion entry.  `streak_walk_terminates` shows the result is
independent of the fuel once it exceeds the ledger size, so the fuelled
function is a faithful rendering of the unbounded loop. -/
def streakAux (L : Ledger) (hid : Nat) : Nat → Int → Nat
  | 0, _ => 0
  | fuel + 1, d => if isCompleted L d hid then streakAux L hid fuel (d - 1) + 1 else 0

/-- The value `streak` holds when the loop in `updateStreak` exits, computed
with sufficient fuel. -/
def streakValue (L : Ledger) (hid : Nat) (today : Int) : Nat :=
  streakAux L hid (L.length + 1) today

/-- The engine state owned by the repository: `this.habits` and
`this.completions`. -/
structure AppState where
  habits : List Habit
  completions : Ledger
deriving Repr, DecidableEq

/-- `updateStreak(habitId)`: recompute the habit's streak from the ledger and
fold it into `bestStreak`.  (When no habit matches, `find` yields `undefined`
and the method returns with nothing mutated; `replaceFirst` is then the
identity.) -/
def updateStreak (st : AppState) (hid : Nat) (today : Int) : AppState :=
  { st with habits := replaceFirst st.habits hid (fun h =>
      let s : Int := (streakValue st.completions hid today : Int)
      { h with streak := s, bestStreak := max h.bestStreak s }) }

/-- `toggleHabitCompletion(habitId)`; `today` stands for `moment()` at call
time.  Mirrors the source order: ensure today's date key, look up the habit
(returning early when unknown), then either delete the entry and decrement
`totalCompletions` floored at 0, or insert the entry, increment
`totalCompletions` and recompute the streak. -/
def toggleHabitCompletion (st : AppState) (hid : Nat) (today : Int) : AppState :=
  let L := ensureDate st.completions today
  match st.habits.find? (fun h => h.id == hid) with
  | none => { st with completions := L }
  | some _ =>
    if isCompleted L today hid then
      { habits := replaceFirst st.habits hid (fun h =>
          { h with totalCompletions := max 0 (h.totalCompletions - 1) }),
        completions := removeCompleted L today hid }
    else
      updateStreak
        { habits := replaceFirst st.habits hid (fun h =>
            { h with totalCompletions := h.totalCompletions + 1 }),
          completions := setCompleted L today hid }
        hid today

/-- A finite sequence of `toggleHabitCompletion` calls, each with the value of
`moment()` at its call time. -/
def applyToggles (st : AppState) : List (Nat × Int) → AppState
  | [] => st
  | (hid, d) :: rest => applyToggles (toggleHabitCompletion st hid d) rest

/-- `deleteHabit(id)` after the user confirms (the `confirm()` dialog is
presentation): drop the habit and delete its key from every date of the
ledger. -/
def deleteHabit (st : AppState) (hid : Nat) : AppState :=
  { habits := st.habits.filter (fun h => h.id ≠ hid),
    completions := st.completions.map (fun p => (p.1, p.2.filter (fun h => h ≠ hid))) }

/-- `isHabitActiveToday(habit)` with `today` the current day index. -/
def isHabitActiveToday (h : Habit) (today : Int) : Bool :=
  if h.frequency == "daily" then true else h.selectedDays.contains (weekday today)

/-- JS whitespace accepted by `parseInt` before the number (space, tab, line
feed, carriage return, vertical tab, form feed). -/
def isJsSpace (c : Char) : Bool :=
  c == ' ' || c == '\t' || c == '\n' || c == '\r' || c == Char.ofNat 11 || c == Char.ofNat 12

/-- Accumulate the longest prefix of decimal digits onto `acc`, stopping at
the first non-digit (as `parseInt` does). -/
def decEat : List Char → Nat → Nat
  | [], acc => acc
  | c :: t, acc => if c.isDigit then decEat t (acc * 10 + (c.toNat - 48)) else acc

/-- Longest decimal-digit prefix; `none` when there is no leading digit. -/
def decPrefix : List Char → Option Nat
  | [] => none
  | c :: t => if c.isDigit then some (decEat t (c.toNat - 48)) else none

/-- Hexadecimal digit value. -/
def hexDigitVal (c : Char) : Option Nat :=
  if c.isDigit then some (c.toNat - 48)
  else if 'a' ≤ c && c ≤ 'f' then some (c.toNat - 87)
  else if 'A' ≤ c && c ≤ 'F' then some (c.toNat - 55)
  else none

/-- Accumulate the longest prefix of hex digits onto `acc`. -/
def hexEat : List Char → Nat → Nat
  | [], acc => acc
  | c :: t, acc =>
    match hexDigitVal c with
    | some v => hexEat t (acc * 16 + v)
    | none => acc

/-- Longest hex-digit prefix; `none` when there is no leading hex digit. -/
def hexPrefix : List Char → Option Nat
  | [] => none
  | c :: t =>
    match hexDigitVal c with
    | some v => some (hexEat t v)
    | none => none

/-- `parseInt(s)` with the radix unspecified: skip leading whitespace, an
optional sign, then either a `0x`/`0X` hexadecimal literal or the longest
decimal-digit prefix; `none` models `NaN`. -/
def parseIntJS (s : String) : Option Int :=
  let cs := s.toList.dropWhile isJsSpace
  let signed : Int × List Char :=
    match cs with
    | '-' :: t => (-1, t)
    | '+' :: t => (1, t)
    | t => (1, t)
  let body := signed.2
  let mag : Option Nat :=
    match body with
    | '0' :: c :: t => if c == 'x' || c == 'X' then hexPrefix t else decPrefix body
    | _ => decPrefix body
  mag.map (fun n => signed.1 * n)

/-- `parseInt(habitData.target) || 1`: `NaN` and `0` are falsy and fall back
to `1`; any other parsed value (negative included) is kept. -/
def coerceTarget (s : String) : Int :=
  match parseIntJS s with
  | none => 1
  | some n => if n = 0 then 1 else n

/-- The form payload handed to `addHabit`.  `target` is the raw form value (a
string); `selectedDays` is `none` when the field is `undefined`/`null` (the
falsy case of `habitData.selectedDays || [0,...,6]`). -/
structure HabitInput where
  name : String
  category : String
  target : String
  frequency : String
  selectedDays : Option (List Int)
deriving Repr, DecidableEq

/-- The habit object literal built inside `addHabit(habitData)`.  `newId`
models `Date.now().toString()` (an opaque fresh id) and `today` the
`createdAt` stamp `moment().format('YYYY-MM-DD')`. -/
def mkHabit (input : HabitInput) (newId : Nat) (today : Int) : Habit :=
  { id := newId
    name := input.name
    category := input.category
    target := coerceTarget input.target
    frequency := input.frequency
    selectedDays := input.selectedDays.getD [0, 1, 2, 3, 4, 5, 6]
    createdAt := today
    streak := 0
    bestStreak := 0
    totalCompletions := 0 }

/-- `addHabit(habitData)`: build the habit record and push it. -/
def addHabit (st : AppState) (input : HabitInput) (newId : Nat) (today : Int) : AppState :=
  { st with habits := st.habits ++ [mkHabit input newId today] }

/-- `getLast30DaysCompletions(habitId)`: completed dates among the last 30
days (today inclusive, looking backward). -/
def getLast30DaysCompletions (L : Ledger) (hid : Nat) (today : Int) : Nat :=
  ((List.range 30).filter (fun i => isCompleted L (today - (i : Int)) hid)).length

/-- `getLast30DaysPossible(habit)`: due days among the last 30 days (daily
habits count every day; otherwise days whose weekday is selected). -/
def getLast30DaysPossible (h : Habit) (today : Int) : Nat :=
  ((List.range 30).filter (fun i =>
      h.frequency == "daily" || h.selectedDays.contains (weekday (today - (i : Int))))).length

/-- The consistency score of `renderConsistencyRadarChart`:
`possible > 0 ? (last30 / possible) * 100 : 0`. -/
def consistencyScore (h : Habit) (L : Ledger) (today : Int) : ℚ :=
  let possible := getLast30DaysPossible h today
  if 0 < possible then (getLast30DaysCompletions L h.id today : ℚ) / possible * 100 else 0

/-- `Math.round` on a nonnegative rational (round half up). -/
def jsRound (q : ℚ) : Int := Int.floor (q + 1 / 2)

/-- The completion rate of `updateStats`:
`todaysHabits.length > 0 ? Math.round((completed / todaysHabits.length) * 100) : 0`. -/
def completionRateToday (st : AppState) (today : Int) : Int :=
  let todays := st.habits.filter (fun h => isHabitActiveToday h today)
  let completed := (todays.filter (fun h => isCompleted st.completions today h.id)).length
  if 0 < todays.length then jsRound ((completed : ℚ) / (todays.length : ℚ) * 100) else 0

/-- The per-category target achievement of `renderTargetRadarChart`: summed
actual completions over summed `possible × target`, as a percentage capped at
100, with `0` when the summed target is not positive. -/
def targetAchievementCategory (hs : List Habit) (L : Ledger) (today : Int) : ℚ :=
  let actual : ℚ := (hs.map (fun h => (getLast30DaysCompletions L h.id today : ℚ))).sum
  let target : ℚ := (hs.map (fun h => (getLast30DaysPossible h today : ℚ) * (h.target : ℚ))).sum
  min (if 0 < target then actual / target * 100 else 0) 100

/-- `calculateCorrelation(habitId1, habitId2)` over an explicit date range
(`getDateRangeData()` is UI-selected state and is passed in as `dates`).
`Math.sqrt` is taken as an unspecified function on ℚ: the theorems hold for
every such function (symmetry), or assume only `sqrt 0 = 0`, which IEEE
square root satisfies. -/
def calculateCorrelation (sqrt : ℚ → ℚ) (L : Ledger) (hid1 hid2 : Nat)
    (dates : List Int) : ℚ :=
  let c1 : List ℚ := dates.map (fun d => if isCompleted L d hid1 then 1 else 0)
  let c2 : List ℚ := dates.map (fun d => if isCompleted L d hid2 then 1 else 0)
  if dates.length = 0 then 0 else
  let n : ℚ := (dates.length : ℚ)
  let sum1 := c1.sum
  let sum2 := c2.sum
  let sum1Sq := (c1.map (fun b => b * b)).sum
  let sum2Sq := (c2.map (fun b => b * b)).sum
  let pSum := ((c1.zip c2).map (fun p => p.1 * p.2)).sum
  let num := pSum - sum1 * sum2 / n
  let den := sqrt ((sum1Sq - sum1 * sum1 / n) * (sum2Sq - sum2 * sum2 / n))
  if den = 0 then 0 else num / den

/-- The matrix built in `renderCorrelationHeatmap` over a list of habits (the
top-6 selection is a choice of `hs`): `1` when the two habit ids coincide,
`calculateCorrelation` otherwise. -/
def correlationMatrix (sqrt : ℚ → ℚ) (L : Ledger) (hs : List Habit)
    (dates : List Int) : List (List ℚ) :=
  hs.map (fun h1 => hs.map (fun h2 =>
    if h1.id == h2.id then 1 else calculateCorrelation sqrt L h1.id h2.id dates))

/-- A field of a parsed JSON import payload: the key may be absent, present
with a falsy value, or present with a truthy value (the only case the code
accepts; `α` is the shape the rest of the engine then consumes). -/
inductive JField (α : Type) where
  | absent : JField α
  | falsyVal : JField α
  | truthyVal : α → JField α
deriving Repr, DecidableEq

/-- The parsed JSON handed to `importData` after `JSON.parse`. -/
structure ImportPayload where
  habits : JField (List Habit)
  completions : JField Ledger
  settings : JField String
deriving Repr, DecidableEq

/-- Engine state together with the (otherwise opaque) settings record, the
three fields `importData` may overwrite. -/
structure FullState where
  habits : List Habit
  completions : Ledger
  settings : String
deriving Repr, DecidableEq

/-- `importData`: accept the payload only when `data.habits` and
`data.completions` are truthy, overwriting the collections (and the settings
when truthy); otherwise `throw new Error('Invalid data format')`, which the
surrounding `catch` turns into an error toast with the state untouched —
modelled as `Except.error` (the caller keeps its state). -/
def importData (st : FullState) (p : ImportPayload) : Except String FullState :=
  match p.habits, p.completions with
  | JField.truthyVal hs, JField.truthyVal cs =>
    Except.ok
      { habits := hs
        completions := cs
        settings := match p.settings with
          | JField.truthyVal s => s
          | _ => st.settings }
  | _, _ => Except.error "Invalid data format"

/-! ### Ledger lemmas -/

lemma find?_map_fst (L : Ledger) (f : Int × List Nat → Int × List Nat)
    (hf : ∀ p, (f p).1 = p.1) (d : Int) :
    (L.map f).find? (fun p => p.1 == d) = (L.find? (fun p => p.1 == d)).map f := by
  have hp : ((fun p : Int × List Nat => p.1 == d) ∘ f) =
      (fun p : Int × List Nat => p.1 == d) := by
    funext p
    simp [Function.comp, hf]
  rw [List.find?_map, hp]

lemma hasDate_map_fst (L : Ledger) (f : Int × List Nat → Int × List Nat)
    (hf : ∀ p, (f p).1 = p.1) (d : Int) :
    hasDate (L.map f) d = hasDate L d := by
  simp [hasDate, find?_map_fst L f hf]

lemma ensureDate_of_hasDate {L : Ledger} {d : Int} (h : hasDate L d = true) :
    ensureDate L d = L := by
  simp [ensureDate, h]

lemma hasDate_ensureDate_self (L : Ledger) (d : Int) :
    hasDate (ensureDate L d) d = true := by
  unfold ensureDate
  by_cases h : hasDate L d
  · simp [h]
  · simp only [h, Bool.false_eq_true, if_false]
    unfold hasDate at h ⊢
    rw [List.find?_append]
    rcases hfind : L.find? (fun p => p.1 == d) with _ | p
    · simp [List.find?]
    · simp [hfind] at h

lemma entriesOn_ensureDate (L : Ledger) (d q : Int) :
    entriesOn (ensureDate L d) q = entriesOn L q := by
  unfold ensureDate
  by_cases h : hasDate L d
  · simp [h]
  · simp only [h, Bool.false_eq_true, if_false]
    unfold entriesOn
    rw [List.find?_append]
    rcases hfind : L.find? (fun p => p.1 == q) with _ | p
    · simp only [hfind, Option.none_or]
      rcases hdq : (d == q) with _ | _ <;> simp [List.find?, hdq]
    · simp [hfind]

lemma isCompleted_ensureDate (L : Ledger) (d q : Int) (hid : Nat) :
    isCompleted (ensureDate L d) q hid = isCompleted L q hid := by
  simp [isCompleted, entriesOn_ensureDate]

lemma entriesOn_mapInner (L : Ledger) (f : Int × List Nat → List Nat) (q : Int) :
    entriesOn (L.map (fun p => (p.1, f p))) q =
      ((L.find? (fun p => p.1 == q)).map f).getD [] := by
  unfold entriesOn
  rw [find?_map_fst L (fun p => (p.1, f p)) (fun p => rfl) q]
  rcases hfind : L.find? (fun p => p.1 == q) with _ | p <;> simp [hfind]

lemma isCompleted_setCompleted_self {L : Ledger} {d : Int} {hid : Nat}
    (h : hasDate L d = true) :
    isCompleted (setCompleted L d hid) d hid = true := by
  unfold isCompleted setCompleted
  rw [show (fun p : Int × List Nat =>
        if p.1 == d then (p.1, if p.2.contains hid then p.2 else hid :: p.2) else p) =
      (fun p : Int × List Nat =>
        (p.1, if p.1 == d then (if p.2.contains hid then p.2 else hid :: p.2) else p.2)) by
    funext p
    by_cases hp : p.1 == d <;> simp [hp]]
  rw [entriesOn_mapInner]
  unfold hasDate at h
  rcases hfind : L.find? (fun p => p.1 == d) with _ | p
  · rw [hfind] at h
    simp at h
  · have hpd : p.1 = d := by
      have h2 := List.find?_some hfind
      simp at h2
      exact h2
    subst hpd
    by_cases hc : hid ∈ p.2 <;> simp [hfind, hc]

lemma isCompleted_setCompleted_other {L : Ledger} {d q : Int} {hid hid' : Nat}
    (h : hid' ≠ hid) :
    isCompleted (setCompleted L d hid) q hid' = isCompleted L q hid' := by
  unfold isCompleted setCompleted
  rw [show (fun p : Int × List Nat =>
        if p.1 == d then (p.1, if p.2.contains hid then p.2 else hid :: p.2) else p) =
      (fun p : Int × List Nat =>
        (p.1, if p.1 == d then (if p.2.contains hid then p.2 else hid :: p.2) else p.2)) by
    funext p
    by_cases hp : p.1 == d <;> simp [hp]]
  rw [entriesOn_mapInner]
  unfold entriesOn
  rcases hfind : L.find? (fun p => p.1 == q) with _ | p
  · simp [hfind]
  · by_cases hpd : p.1 = d
    · subst hpd
      by_cases hc : hid ∈ p.2 <;> simp [hfind, hc, h]
    · simp [hfind, hpd]

lemma isCompleted_removeCompleted_self (L : Ledger) (d : Int) (hid : Nat) :
    isCompleted (removeCompleted L d hid) d hid = false := by
  unfold isCompleted removeCompleted
  rw [show (fun p : Int × List Nat =>
        if p.1 == d then (p.1, p.2.filter (fun h => h ≠ hid)) else p) =
      (fun p : Int × List Nat =>
        (p.1, if p.1 == d then p.2.filter (fun h => h ≠ hid) else p.2)) by
    funext p
    by_cases hp : p.1 == d <;> simp [hp]]
  rw [entriesOn_mapInner]
  rcases hfind : L.find? (fun p => p.1 == d) with _ | p
  · simp [hfind]
  · have hpd : p.1 = d := by
      have h2 := List.find?_some hfind
      simp at h2
      exact h2
    subst hpd
    simp [hfind, List.mem_filter]

lemma isCompleted_removeCompleted_other {L : Ledger} {d q : Int} {hid hid' : Nat}
    (h : hid' ≠ hid) :
    isCompleted (removeCompleted L d hid) q hid' = isCompleted L q hid' := by
  unfold isCompleted removeCompleted
  rw [show (fun p : Int × List Nat =>
        if p.1 == d then (p.1, p.2.filter (fun h => h ≠ hid)) else p) =
      (fun p : Int × List Nat =>
        (p.1, if p.1 == d then p.2.filter (fun h => h ≠ hid) else p.2)) by
    funext p
    by_cases hp : p.1 == d <;> simp [hp]]
  rw [entriesOn_mapInner]
  unfold entriesOn
  rcases hfind : L.find? (fun p => p.1 == q) with _ | p
  · simp [hfind]
  · by_cases hpd : p.1 = d
    · subst hpd
      simp [hfind, List.mem_filter, h]
    · simp [hfind, hpd]

/-! ### replaceFirst lemmas -/

lemma replaceFirst_eq_of_forall_ne {hs : List Habit} {hid : Nat} (f : Habit → Habit)
    (h : ∀ x ∈ hs, x.id ≠ hid) : replaceFirst hs hid f = hs := by
  induction hs with
  | nil => rfl
  | cons a t ih =>
    have ha : a.id ≠ hid := h a (List.mem_cons_self a t)
    simp only [replaceFirst, beq_eq_false_iff_ne.mpr ha, Bool.false_eq_true, if_false]
    rw [ih (fun x hx => h x (List.mem_cons_of_mem a hx))]

lemma mem_replaceFirst {hs : List Habit} {hid : Nat} {f : Habit → Habit} {x : Habit}
    (h : x ∈ replaceFirst hs hid f) :
    x ∈ hs ∨ ∃ y, y ∈ hs ∧ y.id = hid ∧ x = f y := by
  induction hs with
  | nil => simp [replaceFirst] at h
  | cons a t ih =>
    by_cases ha : a.id == hid
    · simp only [replaceFirst, ha, if_true] at h
      rcases List.mem_cons.mp h with hx | hx
      · exact Or.inr ⟨a, List.mem_cons_self a t, by simpa using ha, hx⟩
      · exact Or.inl (List.mem_cons_of_mem a hx)
    · simp only [replaceFirst, ha, Bool.false_eq_true, if_false] at h
      rcases List.mem_cons.mp h with hx | hx
      · exact Or.inl (hx ▸ List.mem_cons_self a t)
      · rcases ih hx with hy | ⟨y, hy, hyid, hxy⟩
        · exact Or.inl (List.mem_cons_of_mem a hy)
        · exact Or.inr ⟨y, List.mem_cons_of_mem a hy, hyid, hxy⟩

lemma map_replaceFirst {α : Type} (g : Habit → α) {hs : List Habit} {hid : Nat}
    {f : Habit → Habit} (h : ∀ x ∈ hs, x.id = hid → g (f x) = g x) :
    (replaceFirst hs hid f).map g = hs.map g := by
  induction hs with
  | nil => rfl
  | cons a t ih =>
    by_cases ha : a.id == hid
    · simp only [replaceFirst, ha, if_true, List.map_cons]
      rw [h a (List.mem_cons_self a t) (by simpa using ha)]
    · simp only [replaceFirst, ha, Bool.false_eq_true, if_false, List.map_cons]
      rw [ih (fun x hx => h x (List.mem_cons_of_mem a hx))]

lemma replaceFirst_replaceFirst {hs : List Habit} {hid : Nat} {f g : Habit → Habit}
    (hf : ∀ x, (f x).id = x.id) :
    replaceFirst (replaceFirst hs hid f) hid g = replaceFirst hs hid (fun x => g (f x)) := by
  induction hs with
  | nil => rfl
  | cons a t ih =>
    by_cases ha : a.id == hid
    · simp [replaceFirst, ha, hf]
    · simp only [replaceFirst, ha, Bool.false_eq_true, if_false]
      rw [ih]

lemma find?_replaceFirst {hs : List Habit} {hid : Nat} {f : Habit → Habit}
    (hf : ∀ x, (f x).id = x.id) :
    (replaceFirst hs hid f).find? (fun x => x.id == hid) =
      (hs.find? (fun x => x.id == hid)).map f := by
  induction hs with
  | nil => rfl
  | cons a t ih =>
    by_cases ha : a.id == hid
    · simp [replaceFirst, List.find?, ha, hf]
    · simp only [replaceFirst, ha, Bool.false_eq_true, if_false, List.find?, ih]

/-! ### Streak walk: boundedness and characterization -/

/-- The set of dates on which the ledger holds a completion entry for `hid`. -/
def completedDates (L : Ledger) (hid : Nat) : Finset Int :=
  ((L.filter (fun p => p.2.contains hid)).map Prod.fst).toFinset

lemma mem_completedDates_of_isCompleted {L : Ledger} {hid : Nat} {d : Int}
    (h : isCompleted L d hid = true) : d ∈ completedDates L hid := by
  unfold isCompleted entriesOn at h
  rcases hfind : L.find? (fun p => p.1 == d) with _ | p
  · rw [hfind] at h
    simp at h
  · rw [hfind] at h
    simp at h
    have hmem := List.mem_of_find?_eq_some hfind
    have hpd : p.1 = d := by
      have h2 := List.find?_some hfind
      simp at h2
      exact h2
    unfold completedDates
    rw [List.mem_toFinset]
    refine List.mem_map.mpr ⟨p, ?_, hpd⟩
    refine List.mem_filter.mpr ⟨hmem, ?_⟩
    simpa using h

lemma card_completedDates_le (L : Ledger) (hid : Nat) :
    (completedDates L hid).card ≤ L.length := by
  unfold completedDates
  calc ((L.filter (fun p => p.2.contains hid)).map Prod.fst).toFinset.card
      ≤ ((L.filter (fun p => p.2.contains hid)).map Prod.fst).length :=
        List.toFinset_card_le _
    _ = (L.filter (fun p => p.2.contains hid)).length := List.length_map ..
    _ ≤ L.length := List.length_filter_le _ _

lemma streakAux_le_filter_card (L : Ledger) (hid : Nat) :
    ∀ (fuel : Nat) (d : Int),
      streakAux L hid fuel d ≤ ((completedDates L hid).filter (fun x => x ≤ d)).card := by
  intro fuel
  induction fuel with
  | zero =>
    intro d
    simp [streakAux]
  | succ f ih =>
    intro d
    unfold streakAux
    by_cases hc : isCompleted L d hid
    · simp only [hc, if_true]
      have hd : d ∈ completedDates L hid := mem_completedDates_of_isCompleted hc
      have h1 := ih (d - 1)
      have h2 : insert d ((completedDates L hid).filter (fun x => x ≤ d - 1)) ⊆
          (completedDates L hid).filter (fun x => x ≤ d) := by
        intro x hx
        rcases Finset.mem_insert.mp hx with rfl | hx
        · exact Finset.mem_filter.mpr ⟨hd, le_refl x⟩
        · rcases Finset.mem_filter.mp hx with ⟨hx1, hx2⟩
          exact Finset.mem_filter.mpr ⟨hx1, by omega⟩
      have h3 : d ∉ (completedDates L hid).filter (fun x => x ≤ d - 1) := by
        intro hx
        rcases Finset.mem_filter.mp hx with ⟨_, hx2⟩
        omega
      have h4 := Finset.card_le_card h2
      rw [Finset.card_insert_of_not_mem h3] at h4
      omega
    · simp [hc]

lemma streakAux_bounded (L : Ledger) (hid : Nat) (fuel : Nat) (d : Int) :
    streakAux L hid fuel d ≤ L.length := by
  refine le_trans (streakAux_le_filter_card L hid fuel d) (le_trans ?_ (card_completedDates_le L hid))
  exact Finset.card_filter_le _ _

lemma streakAux_succ (L : Ledger) (hid : Nat) (fuel : Nat) (d : Int) :
    streakAux L hid (fuel + 1) d =
      if isCompleted L d hid then streakAux L hid fuel (d - 1) + 1 else 0 := rfl

lemma streakAux_stable (L : Ledger) (hid : Nat) :
    ∀ (fuel : Nat) (d : Int), streakAux L hid fuel d < fuel →
      ∀ fuel', fuel ≤ fuel' → streakAux L hid fuel' d = streakAux L hid fuel d := by
  intro fuel
  induction fuel with
  | zero =>
    intro d h
    simp [streakAux] at h
  | succ f ih =>
    intro d h fuel' hle
    rcases fuel' with _ | f'
    · omega
    have hf : f ≤ f' := by omega
    unfold streakAux at h ⊢
    by_cases hc : isCompleted L d hid
    · simp only [hc, if_true] at h ⊢
      have hlt : streakAux L hid f (d - 1) < f := by omega
      rw [ih (d - 1) hlt f' hf]
    · simp [hc]

/-- **C2**: for every finite completion ledger and every habit, the backward
streak walk terminates: its result is already reached with a lookback of
`L.length + 1` days (any larger fuel computes the same value), and the streak
it returns never exceeds the ledger size — in particular the loop does not
iterate unboundedly even when no completions exist. -/
theorem streak_walk_terminates (L : Ledger) (hid : Nat) (today : Int) (fuel : Nat)
    (h : L.length + 1 ≤ fuel) :
    streakAux L hid fuel today = streakValue L hid today ∧
      streakValue L hid today ≤ L.length := by
  have hbound : streakAux L hid (L.length + 1) today ≤ L.length :=
    streakAux_bounded L hid (L.length + 1) today
  refine ⟨?_, hbound⟩
  exact streakAux_stable L hid (L.length + 1) today (by omega) fuel h

/-- Witness for C2: on a concrete five-entry ledger, extra fuel does not
change the walk's result and the streak is bounded by the ledger size. -/
theorem streak_walk_terminates_witness :
    streakAux [(1, [1]), (2, [1]), (3, [1]), (4, [1]), (5, [1])] 1 1000 5 =
      streakValue [(1, [1]), (2, [1]), (3, [1]), (4, [1]), (5, [1])] 1 5 ∧
    streakValue [(1, [1]), (2, [1]), (3, [1]), (4, [1]), (5, [1])] 1 5 ≤ 5 :=
  streak_walk_terminates [(1, [1]), (2, [1]), (3, [1]), (4, [1]), (5, [1])] 1 5 1000
    (by norm_num)

/-- Counterexample for C1 as stated: with the Scenario-2 data — a habit with
frequency `custom` and `selectedDays = [1,2,3,4,5]` (Monday–Friday, id 1),
completions recorded on days 1–5 (Monday–Friday), computed on day 6 (the
following Saturday, weekday 6, a non-due day) — the walk of `updateStreak`
returns `0`, not the claimed `5`: the code stops at the first day without a
completion entry whether or not the habit was due, so the non-due Saturday is
not skipped. (On Friday, day 5, the same data does give streak 5.) -/
theorem streak_saturday_counterexample :
    weekday 6 = 6 ∧
    isHabitActiveToday
      { id := 1, name := "gym", category := "health", target := 1,
        frequency := "custom", selectedDays := [1, 2, 3, 4, 5], createdAt := 0,
        streak := 0, bestStreak := 0, totalCompletions := 5 } 6 = false ∧
    streakValue [(1, [1]), (2, [1]), (3, [1]), (4, [1]), (5, [1])] 1 5 = 5 ∧
    streakValue [(1, [1]), (2, [1]), (3, [1]), (4, [1]), (5, [1])] 1 6 = 0 ∧
    (0 : Nat) ≠ 5 := by
  refine ⟨by decide, by decide, by decide, by decide, by decide⟩

/-- **C1 (amended)**: the streak walk goes backward day-by-day from today; on
each day completed in the ledger it increments the running count and
continues; on a day without a completion entry it stops — whether or not the
habit was due that day (the due-date predicate is never consulted, so a
non-due, non-completed day breaks the streak instead of being skipped; for
the Custom([1,2,3,4,5]) habit completed Monday through Friday, the streak
computed on the following Saturday is therefore 0, not 5). -/
theorem streak_walk_recurrence (L : Ledger) (hid : Nat) (d : Int) :
    (isCompleted L d hid = true →
       streakValue L hid d = streakValue L hid (d - 1) + 1) ∧
    (isCompleted L d hid = false → streakValue L hid d = 0) := by
  constructor
  · intro hc
    have hd : d ∈ completedDates L hid := mem_completedDates_of_isCompleted hc
    have hstep : streakValue L hid d = streakAux L hid L.length (d - 1) + 1 := by
      rw [streakValue, streakAux_succ, if_pos hc]
    -- the inner walk already stops within `L.length` steps: the filtered set
    -- of completed dates at most `d - 1` misses `d`, so its size is below the
    -- total number of completed dates
    have hsub : insert d ((completedDates L hid).filter (fun x => x ≤ d - 1)) ⊆
        completedDates L hid := by
      intro x hx
      rcases Finset.mem_insert.mp hx with rfl | hx
      · exact hd
      · exact (Finset.mem_filter.mp hx).1
    have hnotmem : d ∉ (completedDates L hid).filter (fun x => x ≤ d - 1) := by
      intro hx
      rcases Finset.mem_filter.mp hx with ⟨_, hx2⟩
      omega
    have hcard := Finset.card_le_card hsub
    rw [Finset.card_insert_of_not_mem hnotmem] at hcard
    have hlt : streakAux L hid L.length (d - 1) < L.length := by
      have h1 := streakAux_le_filter_card L hid L.length (d - 1)
      have h2 := card_completedDates_le L hid
      omega
    have hstable := streakAux_stable L hid L.length (d - 1) hlt (L.length + 1) (by omega)
    calc streakValue L hid d = streakAux L hid L.length (d - 1) + 1 := hstep
      _ = streakAux L hid (L.length + 1) (d - 1) + 1 := by rw [hstable]
      _ = streakValue L hid (d - 1) + 1 := rfl
  · intro hc
    rw [streakValue, streakAux_succ, if_neg (by simp [hc])]

/-- Witness for C1 (amended): the recurrence evaluated on the Scenario-2
ledger — Friday (day 5, completed) extends the streak of Thursday; Saturday
(day 6, not completed) resets it to 0. -/
theorem streak_walk_recurrence_witness :
    streakValue [(1, [1]), (2, [1]), (3, [1]), (4, [1]), (5, [1])] 1 5 =
      streakValue [(1, [1]), (2, [1]), (3, [1]), (4, [1]), (5, [1])] 1 4 + 1 ∧
    streakValue [(1, [1]), (2, [1]), (3, [1]), (4, [1]), (5, [1])] 1 6 = 0 :=
  ⟨(streak_walk_recurrence [(1, [1]), (2, [1]), (3, [1]), (4, [1]), (5, [1])] 1 5).1
      (by decide),
   (streak_walk_recurrence [(1, [1]), (2, [1]), (3, [1]), (4, [1]), (5, [1])] 1 6).2
      (by decide)⟩

/-! ### Deletion, unknown-id toggles, import, addHabit -/

/-- **C7**: `deleteHabit` removes the habit with the given id from the
collection (no remaining habit carries that id, every other habit is kept
unchanged and nothing new appears), and removes that habit's entry from every
date of the ledger, leaving zero entries referencing the deleted id while
every other habit's completion state on every date is untouched. -/
theorem deleteHabit_purges (st : AppState) (hid : Nat) :
    (∀ h ∈ (deleteHabit st hid).habits, h.id ≠ hid) ∧
    (∀ h ∈ (deleteHabit st hid).habits, h ∈ st.habits) ∧
    (∀ h ∈ st.habits, h.id ≠ hid → h ∈ (deleteHabit st hid).habits) ∧
    (∀ d : Int, isCompleted (deleteHabit st hid).completions d hid = false) ∧
    (∀ (d : Int) (hid' : Nat), hid' ≠ hid →
      isCompleted (deleteHabit st hid).completions d hid' =
        isCompleted st.completions d hid') := by
  refine ⟨?_, ?_, ?_, ?_, ?_⟩
  · intro h hmem
    have := (List.mem_filter.mp hmem).2
    simpa using this
  · intro h hmem
    exact (List.mem_filter.mp hmem).1
  · intro h hmem hne
    exact List.mem_filter.mpr ⟨hmem, by simpa using hne⟩
  · intro d
    show isCompleted (st.completions.map
      (fun p => (p.1, p.2.filter (fun h => h ≠ hid)))) d hid = false
    unfold isCompleted
    rw [entriesOn_mapInner]
    rcases hfind : st.completions.find? (fun p => p.1 == d) with _ | p
    · simp [hfind]
    · simp [hfind, List.mem_filter]
  · intro d hid' hne
    show isCompleted (st.completions.map
        (fun p => (p.1, p.2.filter (fun h => h ≠ hid)))) d hid' =
      isCompleted st.completions d hid'
    unfold isCompleted
    rw [entriesOn_mapInner]
    unfold entriesOn
    rcases hfind : st.completions.find? (fun p => p.1 == d) with _ | p
    · simp [hfind]
    · simp [hfind, List.mem_filter, hne]

/-- Witness for C7: concrete state with two habits and entries for both on
two dates; deleting habit 1 clears its entries everywhere and keeps
habit 2's. -/
theorem deleteHabit_purges_witness :
    isCompleted (deleteHabit
      { habits := [{ id := 1, name := "a", category := "c", target := 1,
                     frequency := "daily", selectedDays := [0, 1, 2, 3, 4, 5, 6],
                     createdAt := 0, streak := 0, bestStreak := 0, totalCompletions := 2 },
                   { id := 2, name := "b", category := "c", target := 1,
                     frequency := "daily", selectedDays := [0, 1, 2, 3, 4, 5, 6],
                     createdAt := 0, streak := 0, bestStreak := 0, totalCompletions := 2 }],
        completions := [(10, [1, 2]), (11, [1, 2])] } 1).completions 10 1 = false ∧
    isCompleted (deleteHabit
      { habits := [{ id := 1, name := "a", category := "c", target := 1,
                     frequency := "daily", selectedDays := [0, 1, 2, 3, 4, 5, 6],
                     createdAt := 0, streak := 0, bestStreak := 0, totalCompletions := 2 },
                   { id := 2, name := "b", category := "c", target := 1,
                     frequency := "daily", selectedDays := [0, 1, 2, 3, 4, 5, 6],
                     createdAt := 0, streak := 0, bestStreak := 0, totalCompletions := 2 }],
        completions := [(10, [1, 2]), (11, [1, 2])] } 1).completions 10 2 =
      isCompleted [(10, [1, 2]), (11, [1, 2])] 10 2 :=
  ⟨(deleteHabit_purges
      { habits := [{ id := 1, name := "a", category := "c", target := 1,
                     frequency := "daily", selectedDays := [0, 1, 2, 3, 4, 5, 6],
                     createdAt := 0, streak := 0, bestStreak := 0, totalCompletions := 2 },
                   { id := 2, name := "b", category := "c", target := 1,
                     frequency := "daily", selectedDays := [0, 1, 2, 3, 4, 5, 6],
                     createdAt := 0, streak := 0, bestStreak := 0, totalCompletions := 2 }],
        completions := [(10, [1, 2]), (11, [1, 2])] } 1).2.2.2.1 10,
   (deleteHabit_purges
      { habits := [{ id := 1, name := "a", category := "c", target := 1,
                     frequency := "daily", selectedDays := [0, 1, 2, 3, 4, 5, 6],
                     createdAt := 0, streak := 0, bestStreak := 0, totalCompletions := 2 },
                   { id := 2, name := "b", category := "c", target := 1,
                     frequency := "daily", selectedDays := [0, 1, 2, 3, 4, 5, 6],
                     createdAt := 0, streak := 0, bestStreak := 0, totalCompletions := 2 }],
        completions := [(10, [1, 2]), (11, [1, 2])] } 1).2.2.2.2 10 2 (by decide)⟩

/-- **C10**: toggling a habit id that is not in the collection leaves every
habit record unchanged and records no completion event for any habit on any
date; the only possible state change is the creation of an empty habit map
for today's date. -/
theorem toggle_unknown_id_noop (st : AppState) (hid : Nat) (today : Int)
    (h : ∀ x ∈ st.habits, x.id ≠ hid) :
    (toggleHabitCompletion st hid today).habits = st.habits ∧
    (toggleHabitCompletion st hid today).completions = ensureDate st.completions today ∧
    (∀ (d : Int) (hid' : Nat),
      isCompleted (toggleHabitCompletion st hid today).completions d hid' =
        isCompleted st.completions d hid') := by
  have hfind : st.habits.find? (fun x => x.id == hid) = none :=
    List.find?_eq_none.mpr (fun x hx => by simpa using h x hx)
  unfold toggleHabitCompletion
  rw [hfind]
  exact ⟨rfl, rfl, fun d hid' => isCompleted_ensureDate _ _ _ _⟩

/-- Witness for C10: toggling the unknown id 99 on a one-habit state only
adds the empty map for day 3. -/
theorem toggle_unknown_id_noop_witness :
    (toggleHabitCompletion
      { habits := [{ id := 1, name := "a", category := "c", target := 1,
                     frequency := "daily", selectedDays := [0, 1, 2, 3, 4, 5, 6],
                     createdAt := 0, streak := 0, bestStreak := 0, totalCompletions := 0 }],
        completions := [] } 99 3).habits =
      [{ id := 1, name := "a", category := "c", target := 1,
         frequency := "daily", selectedDays := [0, 1, 2, 3, 4, 5, 6],
         createdAt := 0, streak := 0, bestStreak := 0, totalCompletions := 0 }] ∧
    (toggleHabitCompletion
      { habits := [{ id := 1, name := "a", category := "c", target := 1,
                     frequency := "daily", selectedDays := [0, 1, 2, 3, 4, 5, 6],
                     createdAt := 0, streak := 0, bestStreak := 0, totalCompletions := 0 }],
        completions := [] } 99 3).completions = ensureDate [] 3 ∧
    isCompleted (toggleHabitCompletion
      { habits := [{ id := 1, name := "a", category := "c", target := 1,
                     frequency := "daily", selectedDays := [0, 1, 2, 3, 4, 5, 6],
                     createdAt := 0, streak := 0, bestStreak := 0, totalCompletions := 0 }],
        completions := [] } 99 3).completions 3 99 = isCompleted [] 3 99 := by
  have ht := toggle_unknown_id_noop
    { habits := [{ id := 1, name := "a", category := "c", target := 1,
                   frequency := "daily", selectedDays := [0, 1, 2, 3, 4, 5, 6],
                   createdAt := 0, streak := 0, bestStreak := 0, totalCompletions := 0 }],
      completions := [] } 99 3 (by decide)
  exact ⟨ht.1, ht.2.1, ht.2.2 3 99⟩

/-- **C9**: the import accepts a payload only when both the `habits` and
`completions` keys are present (acceptance implies presence); when either key
is absent it signals the invalid-format error, and since the error result
carries no state, the caller's habit collection and ledger are left entirely
unchanged (no partial overwrite is possible: the accepted branch replaces
both collections in one step). -/
theorem importData_validates (st : FullState) (p : ImportPayload) :
    (∀ st' : FullState, importData st p = Except.ok st' →
      p.habits ≠ JField.absent ∧ p.completions ≠ JField.absent) ∧
    ((p.habits = JField.absent ∨ p.completions = JField.absent) →
      HabitFlow.importData st p = Except.error "Invalid data format") := by
  rcases p with ⟨hb, cp, s⟩
  rcases hb <;> rcases cp <;> simp [importData]

/-- Witness for C9: a payload missing the `completions` key is rejected with
the invalid-format error (and the one with both keys truthy is not forced to
be absent). -/
theorem importData_validates_witness :
    HabitFlow.importData { habits := [], completions := [], settings := "s" }
      { habits := JField.truthyVal [], completions := JField.absent,
        settings := JField.absent } =
      Except.error "Invalid data format" :=
  (importData_validates { habits := [], completions := [], settings := "s" }
    { habits := JField.truthyVal [], completions := JField.absent,
      settings := JField.absent }).2 (Or.inr rfl)

lemma coerceTarget_ne_zero (s : String) : coerceTarget s ≠ 0 := by
  unfold coerceTarget
  rcases h : parseIntJS s with _ | n
  · simp
  · by_cases hn : n = 0 <;> simp [hn]

lemma coerceTarget_pos_of_nonneg {s : String} {n : Int}
    (h : parseIntJS s = some n) (hn : 0 ≤ n) : 0 < coerceTarget s := by
  unfold coerceTarget
  rw [h]
  by_cases h0 : n = 0
  · simp [h0]
  · simp only [h0, if_false]
    omega

/-- Counterexample for C8 as stated: the form value `"-5"` parses to `-5`,
which is truthy, so `parseInt(habitData.target) || 1` keeps it: the created
habit's target is `-5`, not a positive integer. -/
theorem addHabit_negative_target_counterexample :
    (mkHabit { name := "x", category := "c", target := "-5", frequency := "daily",
               selectedDays := none } 7 100).target = -5 ∧
    ¬ (0 : Int) < -5 ∧
    (addHabit { habits := [], completions := [] }
      { name := "x", category := "c", target := "-5", frequency := "daily",
        selectedDays := none } 7 100).habits.map (fun h => h.target) = [-5] := by
  exact ⟨by decide, by decide, by decide⟩

/-- **C8 (amended)**: `addHabit` appends exactly one new habit built from the
input: its `target` is `parseInt` of the raw input whenever that parses to a
nonzero integer and `1` otherwise (hence positive whenever the input does not
parse to a negative number — but negative inputs are kept as-is);
`selectedDays` defaults to all seven weekdays when unset and is kept when
set; `createdAt` is stamped with today; and the `streak`, `bestStreak`, and
`totalCompletions` counters start at zero. -/
theorem addHabit_initializes (st : AppState) (input : HabitInput) (newId : Nat)
    (today : Int) :
    (addHabit st input newId today).habits = st.habits ++ [mkHabit input newId today] ∧
    (mkHabit input newId today).id = newId ∧
    (mkHabit input newId today).target = coerceTarget input.target ∧
    (mkHabit input newId today).target ≠ 0 ∧
    (parseIntJS input.target = none → (mkHabit input newId today).target = 1) ∧
    (∀ n : Int, parseIntJS input.target = some n → 0 ≤ n →
      0 < (mkHabit input newId today).target) ∧
    (input.selectedDays = none →
      (mkHabit input newId today).selectedDays = [0, 1, 2, 3, 4, 5, 6]) ∧
    (∀ ds : List Int, input.selectedDays = some ds →
      (mkHabit input newId today).selectedDays = ds) ∧
    (mkHabit input newId today).createdAt = today ∧
    (mkHabit input newId today).streak = 0 ∧
    (mkHabit input newId today).bestStreak = 0 ∧
    (mkHabit input newId today).totalCompletions = 0 := by
  refine ⟨rfl, rfl, rfl, coerceTarget_ne_zero _, ?_, ?_, ?_, ?_, rfl, rfl, rfl, rfl⟩
  · intro h
    show coerceTarget input.target = 1
    unfold coerceTarget
    rw [h]
  · intro n h hn
    exact coerceTarget_pos_of_nonneg h hn
  · intro h
    show input.selectedDays.getD [0, 1, 2, 3, 4, 5, 6] = [0, 1, 2, 3, 4, 5, 6]
    rw [h]
    rfl
  · intro ds h
    show input.selectedDays.getD [0, 1, 2, 3, 4, 5, 6] = ds
    rw [h]
    rfl

/-- Witness for C8 (amended): a well-formed input (`target = "3"`, days
unset) yields a positive target of 3 and the seven-day default. -/
theorem addHabit_initializes_witness :
    0 < (mkHabit { name := "run", category := "health", target := "3",
                   frequency := "daily", selectedDays := none } 5 20).target ∧
    (mkHabit { name := "run", category := "health", target := "3",
               frequency := "daily", selectedDays := none } 5 20).selectedDays =
      [0, 1, 2, 3, 4, 5, 6] ∧
    (addHabit { habits := [], completions := [] }
      { name := "run", category := "health", target := "3",
        frequency := "daily", selectedDays := none } 5 20).habits =
      [] ++ [mkHabit { name := "run", category := "health", target := "3",
                       frequency := "daily", selectedDays := none } 5 20] :=
  ⟨(addHabit_initializes { habits := [], completions := [] }
      { name := "run", category := "health", target := "3",
        frequency := "daily", selectedDays := none } 5 20).2.2.2.2.2.1 3 (by decide)
      (by decide),
   (addHabit_initializes { habits := [], completions := [] }
      { name := "run", category := "health", target := "3",
        frequency := "daily", selectedDays := none } 5 20).2.2.2.2.2.2.1 rfl,
   (addHabit_initializes { habits := [], completions := [] }
      { name := "run", category := "health", target := "3",
        frequency := "daily", selectedDays := none } 5 20).1⟩

/-- The variance term `sumSq - sum * sum / n` that `calculateCorrelation`
computes for one habit's binary completion vector over the date range — one
of the two factors under `Math.sqrt` in the denominator.  It is zero exactly
on the zero-variance vectors (for a 0/1 vector: all-completed or
never-completed ranges). -/
def varTerm (L : Ledger) (hid : Nat) (dates : List Int) : ℚ :=
  let c := dates.map (fun d => if isCompleted L d hid then (1 : ℚ) else 0)
  (c.map (fun x => x * x)).sum - c.sum * c.sum / (dates.length : ℚ)

lemma indicator_sq_sum (p : Int → Bool) (dates : List Int) :
    ((dates.map (fun d => if p d then (1 : ℚ) else 0)).map (fun x => x * x)).sum =
      (dates.map (fun d => if p d then (1 : ℚ) else 0)).sum := by
  induction dates with
  | nil => simp
  | cons d t ih =>
    simp only [List.map_cons, List.sum_cons, ih]
    by_cases hp : p d <;> simp [hp]

lemma indicator_sum_of_all (p : Int → Bool) (dates : List Int)
    (h : ∀ d ∈ dates, p d = true) :
    (dates.map (fun d => if p d then (1 : ℚ) else 0)).sum = (dates.length : ℚ) := by
  induction dates with
  | nil => simp
  | cons d t ih =>
    have hd : p d = true := h d (List.mem_cons_self d t)
    have ht := ih (fun x hx => h x (List.mem_cons_of_mem d hx))
    simp [hd, ht]
    ring

lemma indicator_sum_of_none (p : Int → Bool) (dates : List Int)
    (h : ∀ d ∈ dates, p d = false) :
    (dates.map (fun d => if p d then (1 : ℚ) else 0)).sum = 0 := by
  refine List.sum_eq_zero ?_
  intro x hx
  rcases List.mem_map.mp hx with ⟨d, hd, rfl⟩
  simp [h d hd]

/-- A constant completion vector (completed on every date of the range, or on
none) has a zero variance term — the two ways a 0/1 vector can have zero
variance. -/
lemma varTerm_eq_zero_of_const {L : Ledger} {hid : Nat} {dates : List Int}
    (h : (∀ d ∈ dates, isCompleted L d hid = true) ∨
      (∀ d ∈ dates, isCompleted L d hid = false)) :
    varTerm L hid dates = 0 := by
  simp only [varTerm]
  rcases h with h | h
  · rw [indicator_sq_sum, indicator_sum_of_all _ _ h, mul_self_div_self, sub_self]
  · rw [indicator_sq_sum, indicator_sum_of_none _ _ h]
    simp

/-- **C6**: every zero-denominator input is guarded: with no due habits the
completion rate is 0; with zero possible days the consistency score is 0;
with a zero summed target the target-achievement percentage is 0; and
whenever either habit's completion vector has zero variance over the range —
equivalently, whenever either variance factor under the square root is 0, in
particular for a habit completed on every date of the range or on none —
the Pearson denominator is 0 and the correlation returns 0.  All four are
total functions — no error is raised.  (`sq 0 = 0` is the only fact assumed
of `Math.sqrt`.) -/
theorem zero_denominator_safety :
    (∀ (st : AppState) (today : Int),
      st.habits.filter (fun h => isHabitActiveToday h today) = [] →
      completionRateToday st today = 0) ∧
    (∀ (h : Habit) (L : Ledger) (today : Int),
      getLast30DaysPossible h today = 0 → consistencyScore h L today = 0) ∧
    (∀ (hs : List Habit) (L : Ledger) (today : Int),
      (hs.map (fun h => (getLast30DaysPossible h today : ℚ) * (h.target : ℚ))).sum = 0 →
      targetAchievementCategory hs L today = 0) ∧
    (∀ (sq : ℚ → ℚ) (L : Ledger) (a b : Nat) (dates : List Int),
      sq 0 = 0 →
      (varTerm L a dates = 0 ∨ varTerm L b dates = 0) →
      calculateCorrelation sq L a b dates = 0) ∧
    (∀ (sq : ℚ → ℚ) (L : Ledger) (a b : Nat) (dates : List Int),
      sq 0 = 0 →
      ((∀ d ∈ dates, isCompleted L d a = true) ∨
        (∀ d ∈ dates, isCompleted L d a = false) ∨
        (∀ d ∈ dates, isCompleted L d b = true) ∨
        (∀ d ∈ dates, isCompleted L d b = false)) →
      calculateCorrelation sq L a b dates = 0) := by
  have hmain : ∀ (sq : ℚ → ℚ) (L : Ledger) (a b : Nat) (dates : List Int),
      sq 0 = 0 → (varTerm L a dates = 0 ∨ varTerm L b dates = 0) →
      calculateCorrelation sq L a b dates = 0 := by
    intro sq L a b dates hsq hvar
    simp only [calculateCorrelation]
    by_cases hn : dates.length = 0
    · simp [hn]
    · simp only [hn, if_false]
      simp only [varTerm] at hvar
      rcases hvar with hv | hv
      · rw [hv, zero_mul, hsq]
        simp
      · rw [hv, mul_zero, hsq]
        simp
  refine ⟨?_, ?_, ?_, hmain, ?_⟩
  · intro st today hfil
    unfold completionRateToday
    rw [hfil]
    simp
  · intro h L today hp
    unfold consistencyScore
    rw [hp]
    simp
  · intro hs L today ht
    unfold targetAchievementCategory
    rw [ht]
    simp
  · intro sq L a b dates hsq hconst
    refine hmain sq L a b dates hsq ?_
    rcases hconst with h | h | h | h
    · exact Or.inl (varTerm_eq_zero_of_const (Or.inl h))
    · exact Or.inl (varTerm_eq_zero_of_const (Or.inr h))
    · exact Or.inr (varTerm_eq_zero_of_const (Or.inl h))
    · exact Or.inr (varTerm_eq_zero_of_const (Or.inr h))

/-- Witness for C6: a state with no habits gives rate 0; a custom habit with
no selected days has 0 possible days and score 0; an empty category sums to
target 0 and achievement 0; a habit never completed in the range has a zero
variance term and correlates 0; and a habit completed on every date of the
range (here the second argument) also correlates 0 (with the identity
standing in for an arbitrary square-root function). -/
theorem zero_denominator_safety_witness :
    completionRateToday { habits := [], completions := [] } 0 = 0 ∧
    consistencyScore { id := 1, name := "a", category := "c", target := 1,
                       frequency := "custom", selectedDays := [], createdAt := 0,
                       streak := 0, bestStreak := 0, totalCompletions := 0 } [] 0 = 0 ∧
    targetAchievementCategory [] [] 0 = 0 ∧
    calculateCorrelation id [(0, [2])] 1 2 [0, 1, 2] = 0 ∧
    calculateCorrelation id [(0, [1]), (1, [1]), (2, [1])] 2 1 [0, 1, 2] = 0 :=
  ⟨zero_denominator_safety.1 { habits := [], completions := [] } 0 (by decide),
   zero_denominator_safety.2.1 { id := 1, name := "a", category := "c", target := 1,
                                 frequency := "custom", selectedDays := [],
                                 createdAt := 0, streak := 0, bestStreak := 0,
                                 totalCompletions := 0 } [] 0 (by decide),
   zero_denominator_safety.2.2.1 [] [] 0 (by simp),
   zero_denominator_safety.2.2.2.1 id [(0, [2])] 1 2 [0, 1, 2] rfl
     (Or.inl (varTerm_eq_zero_of_const (Or.inr (by decide)))),
   zero_denominator_safety.2.2.2.2 id [(0, [1]), (1, [1]), (2, [1])] 2 1 [0, 1, 2] rfl
     (Or.inr (Or.inr (Or.inl (by decide))))⟩

/-! ### Counter invariants under toggles -/

/-- The per-habit counter invariant of §3 of the spec. -/
def habitOK (h : Habit) : Prop :=
  h.streak ≤ h.bestStreak ∧ 0 ≤ h.streak ∧ 0 ≤ h.totalCompletions

instance (h : Habit) : Decidable (habitOK h) := by
  unfold habitOK
  infer_instance

lemma habitOK_replaceFirst {hs : List Habit} {hid : Nat} {f : Habit → Habit}
    (hOK : ∀ h ∈ hs, habitOK h) (hf : ∀ h, habitOK h → habitOK (f h)) :
    ∀ h ∈ replaceFirst hs hid f, habitOK h := by
  intro h hmem
  rcases mem_replaceFirst hmem with hin | ⟨y, hy, _, rfl⟩
  · exact hOK h hin
  · exact hf y (hOK y hy)

lemma toggle_preserves_habitOK (st : AppState) (hid : Nat) (today : Int)
    (hOK : ∀ h ∈ st.habits, habitOK h) :
    ∀ h ∈ (toggleHabitCompletion st hid today).habits, habitOK h := by
  unfold toggleHabitCompletion
  rcases hfind : st.habits.find? (fun h => h.id == hid) with _ | h₀
  · simp only [hfind]
    simpa using hOK
  · simp only [hfind]
    by_cases hc : isCompleted (ensureDate st.completions today) today hid
    · simp only [hc, if_true]
      refine habitOK_replaceFirst hOK ?_
      intro h hh
      rcases hh with ⟨h1, h2, h3⟩
      exact ⟨h1, h2, le_max_left 0 _⟩
    · simp only [hc, Bool.false_eq_true, if_false]
      unfold updateStreak
      refine habitOK_replaceFirst (habitOK_replaceFirst hOK ?_) ?_
      · intro h hh
        rcases hh with ⟨h1, h2, h3⟩
        exact ⟨h1, h2, show (0 : Int) ≤ h.totalCompletions + 1 by omega⟩
      · intro h hh
        rcases hh with ⟨h1, h2, h3⟩
        exact ⟨le_max_right _ _, Int.natCast_nonneg _, h3⟩

/-- **C3**: starting from any state whose habits all carry zero counters (as
`addHabit` creates them), after every finite sequence of
`toggleHabitCompletion` calls every habit satisfies
`bestStreak ≥ streak ≥ 0` and `totalCompletions ≥ 0`.  (The sequence is
arbitrary, so the invariant holds after each call of any longer sequence.) -/
theorem toggle_sequence_invariant (st : AppState) (ops : List (Nat × Int))
    (h0 : ∀ h ∈ st.habits, h.streak = 0 ∧ h.bestStreak = 0 ∧ h.totalCompletions = 0) :
    ∀ h ∈ (applyToggles st ops).habits,
      h.streak ≤ h.bestStreak ∧ 0 ≤ h.streak ∧ 0 ≤ h.totalCompletions := by
  have hOK : ∀ h ∈ st.habits, habitOK h := by
    intro h hh
    rcases h0 h hh with ⟨h1, h2, h3⟩
    exact ⟨by omega, by omega, by omega⟩
  clear h0
  induction ops generalizing st with
  | nil => simpa [applyToggles] using hOK
  | cons op rest ih =>
    rcases op with ⟨hid, d⟩
    exact ih (toggleHabitCompletion st hid d) (toggle_preserves_habitOK st hid d hOK)

/-- Witness for C3: a two-habit zero-counter state after four toggles (mark,
unmark, mark on a later day, mark the other habit): the first habit of the
resulting collection satisfies the counter invariant. -/
theorem toggle_sequence_invariant_witness :
    ({ id := 1, name := "a", category := "c", target := 1,
       frequency := "daily", selectedDays := [0, 1, 2, 3, 4, 5, 6],
       createdAt := 0, streak := 1, bestStreak := 1,
       totalCompletions := 1 } : Habit).streak ≤
      ({ id := 1, name := "a", category := "c", target := 1,
         frequency := "daily", selectedDays := [0, 1, 2, 3, 4, 5, 6],
         createdAt := 0, streak := 1, bestStreak := 1,
         totalCompletions := 1 } : Habit).bestStreak ∧
    (0 : Int) ≤ ({ id := 1, name := "a", category := "c", target := 1,
                   frequency := "daily", selectedDays := [0, 1, 2, 3, 4, 5, 6],
                   createdAt := 0, streak := 1, bestStreak := 1,
                   totalCompletions := 1 } : Habit).streak ∧
    (0 : Int) ≤ ({ id := 1, name := "a", category := "c", target := 1,
                   frequency := "daily", selectedDays := [0, 1, 2, 3, 4, 5, 6],
                   createdAt := 0, streak := 1, bestStreak := 1,
                   totalCompletions := 1 } : Habit).totalCompletions :=
  toggle_sequence_invariant
    { habits := [{ id := 1, name := "a", category := "c", target := 1,
                   frequency := "daily", selectedDays := [0, 1, 2, 3, 4, 5, 6],
                   createdAt := 0, streak := 0, bestStreak := 0, totalCompletions := 0 },
                 { id := 2, name := "b", category := "c", target := 1,
                   frequency := "daily", selectedDays := [0, 1, 2, 3, 4, 5, 6],
                   createdAt := 0, streak := 0, bestStreak := 0, totalCompletions := 0 }],
      completions := [] } [(1, 3), (1, 3), (1, 4), (2, 4)] (by decide)
    { id := 1, name := "a", category := "c", target := 1,
      frequency := "daily", selectedDays := [0, 1, 2, 3, 4, 5, 6],
      createdAt := 0, streak := 1, bestStreak := 1, totalCompletions := 1 }
    (by decide)

/-! ### Double toggle -/

lemma hasDate_setCompleted (L : Ledger) (d : Int) (hid : Nat) (q : Int) :
    hasDate (setCompleted L d hid) q = hasDate L q := by
  unfold setCompleted
  exact hasDate_map_fst L _ (fun p => by by_cases hp : p.1 == d <;> simp [hp]) q

lemma hasDate_removeCompleted (L : Ledger) (d : Int) (hid : Nat) (q : Int) :
    hasDate (removeCompleted L d hid) q = hasDate L q := by
  unfold removeCompleted
  exact hasDate_map_fst L _ (fun p => by by_cases hp : p.1 == d <;> simp [hp]) q

lemma map_replaceFirst_comp3 {hs : List Habit} {hid : Nat} {f1 f2 f3 : Habit → Habit}
    {α : Type} (g : Habit → α)
    (hf1 : ∀ x, (f1 x).id = x.id) (hf2 : ∀ x, (f2 x).id = x.id)
    (h : ∀ x ∈ hs, x.id = hid → g (f3 (f2 (f1 x))) = g x) :
    (replaceFirst (replaceFirst (replaceFirst hs hid f1) hid f2) hid f3).map g =
      hs.map g := by
  rw [replaceFirst_replaceFirst hf1]
  rw [replaceFirst_replaceFirst (fun x => by rw [hf2, hf1])]
  exact map_replaceFirst g h

/-- Counterexample for C4 as stated: in a state whose habit has
`totalCompletions = 0` while today's entry is completed (a state accepted
verbatim by the bulk import, which carries counters without validation), the
first toggle removes the entry but floors the decrement at 0, and the second
re-adds it and increments: `totalCompletions` ends at 1, not its original 0. -/
theorem toggle_twice_counterexample :
    ((toggleHabitCompletion (toggleHabitCompletion
        { habits := [{ id := 1, name := "a", category := "c", target := 1,
                       frequency := "daily", selectedDays := [0, 1, 2, 3, 4, 5, 6],
                       createdAt := 0, streak := 0, bestStreak := 0,
                       totalCompletions := 0 }],
          completions := [(0, [1])] } 1 0) 1 0).habits.map
      (fun h => h.totalCompletions)) = [1] ∧ (1 : Int) ≠ 0 := by
  exact ⟨by decide, by decide⟩

lemma toggle_unknown (hs : List Habit) (C : Ledger) (hid : Nat) (today : Int)
    (hfind : hs.find? (fun h => h.id == hid) = none) :
    toggleHabitCompletion ⟨hs, C⟩ hid today = ⟨hs, ensureDate C today⟩ := by
  unfold toggleHabitCompletion
  dsimp only
  rw [hfind]

lemma toggle_known_completed (hs : List Habit) (C : Ledger) (hid : Nat) (today : Int)
    (hfind : hs.find? (fun h => h.id == hid) ≠ none)
    (hc : isCompleted (ensureDate C today) today hid = true) :
    toggleHabitCompletion ⟨hs, C⟩ hid today =
      ⟨replaceFirst hs hid (fun h =>
          { h with totalCompletions := max 0 (h.totalCompletions - 1) }),
        removeCompleted (ensureDate C today) today hid⟩ := by
  unfold toggleHabitCompletion
  dsimp only
  rcases hf : hs.find? (fun h => h.id == hid) with _ | h₀
  · exact absurd hf hfind
  · simp [hf, hc]

lemma toggle_known_not_completed (hs : List Habit) (C : Ledger) (hid : Nat) (today : Int)
    (hfind : hs.find? (fun h => h.id == hid) ≠ none)
    (hc : isCompleted (ensureDate C today) today hid = false) :
    toggleHabitCompletion ⟨hs, C⟩ hid today =
      ⟨replaceFirst (replaceFirst hs hid (fun h =>
          { h with totalCompletions := h.totalCompletions + 1 })) hid (fun h =>
          let s : Int :=
            (streakValue (setCompleted (ensureDate C today) today hid) hid today : Int)
          { h with streak := s, bestStreak := max h.bestStreak s }),
        setCompleted (ensureDate C today) today hid⟩ := by
  unfold toggleHabitCompletion
  dsimp only
  rcases hf : hs.find? (fun h => h.id == hid) with _ | h₀
  · exact absurd hf hfind
  · simp only [hf, hc, Bool.false_eq_true, if_false]
    unfold updateStreak
    rfl

/-- **C4 (amended)**: for every habit and date, toggling twice in succession
returns the ledger's completion state for (date, habitId) to its original
value; it also returns the habit's `totalCompletions` to its original value
provided the counter is consistent with the ledger (nonnegative, and at least
1 when the date is already completed) — the decrement's floor at 0 otherwise
raises an inconsistent counter instead of restoring it.  Counters of all
other habits are untouched. -/
theorem toggle_twice_restores (st : AppState) (hid : Nat) (today : Int)
    (hcons : ∀ h ∈ st.habits, h.id = hid →
      0 ≤ h.totalCompletions ∧
        (isCompleted st.completions today hid = true → 1 ≤ h.totalCompletions)) :
    isCompleted
        (toggleHabitCompletion (toggleHabitCompletion st hid today) hid today).completions
        today hid = isCompleted st.completions today hid ∧
    (toggleHabitCompletion (toggleHabitCompletion st hid today) hid today).habits.map
        (fun h => (h.id, h.totalCompletions)) =
      st.habits.map (fun h => (h.id, h.totalCompletions)) := by
  obtain ⟨hs, C⟩ := st
  dsimp only at hcons ⊢
  have hL1has : hasDate (ensureDate C today) today = true :=
    hasDate_ensureDate_self _ _
  have hiso : isCompleted (ensureDate C today) today hid = isCompleted C today hid :=
    isCompleted_ensureDate _ _ _ _
  rcases hfind : hs.find? (fun h => h.id == hid) with _ | h₀
  · -- unknown habit id: both toggles only ensure today's date key
    rw [toggle_unknown hs C hid today hfind,
      toggle_unknown hs (ensureDate C today) hid today hfind,
      ensureDate_of_hasDate hL1has]
    exact ⟨hiso, rfl⟩
  · have hfindne : hs.find? (fun h => h.id == hid) ≠ none := by
      rw [hfind]
      simp
    by_cases hc : isCompleted (ensureDate C today) today hid
    · -- completed today: remove (decrement floored), then add back (increment)
      rw [toggle_known_completed hs C hid today hfindne hc]
      have hhd : hasDate (removeCompleted (ensureDate C today) today hid) today = true := by
        rw [hasDate_removeCompleted]
        exact hL1has
      have hfind2 : (replaceFirst hs hid (fun h =>
          { h with totalCompletions := max 0 (h.totalCompletions - 1) })).find?
            (fun h => h.id == hid) ≠ none := by
        rw [@find?_replaceFirst hs hid
          (fun h => { h with totalCompletions := max 0 (h.totalCompletions - 1) })
          (fun x => rfl), hfind]
        simp
      have hc2 : isCompleted (ensureDate (removeCompleted (ensureDate C today) today hid)
          today) today hid = false := by
        rw [ensureDate_of_hasDate hhd]
        exact isCompleted_removeCompleted_self _ _ _
      rw [toggle_known_not_completed _ _ hid today hfind2 hc2]
      constructor
      · dsimp only
        rw [ensureDate_of_hasDate hhd, isCompleted_setCompleted_self hhd, ← hiso, hc]
      · dsimp only
        refine map_replaceFirst_comp3 _ (fun x => rfl) (fun x => rfl) ?_
        intro x hx hxid
        rcases hcons x hx hxid with ⟨hx0, hx1⟩
        have hx2 : 1 ≤ x.totalCompletions := hx1 (by rw [← hiso, hc])
        show (x.id, max 0 (x.totalCompletions - 1) + 1) = (x.id, x.totalCompletions)
        have hmax : max 0 (x.totalCompletions - 1) + 1 = x.totalCompletions := by omega
        rw [hmax]
    · -- not completed today: add (increment, streak recompute), then remove
      rw [eq_false_of_ne_true hc] at hiso
      rw [toggle_known_not_completed hs C hid today hfindne (eq_false_of_ne_true hc)]
      have hhd : hasDate (setCompleted (ensureDate C today) today hid) today = true := by
        rw [hasDate_setCompleted]
        exact hL1has
      have hfind2 : (replaceFirst (replaceFirst hs hid (fun h =>
          { h with totalCompletions := h.totalCompletions + 1 })) hid (fun h =>
          let s : Int :=
            (streakValue (setCompleted (ensureDate C today) today hid) hid today : Int)
          { h with streak := s, bestStreak := max h.bestStreak s })).find?
            (fun h => h.id == hid) ≠ none := by
        rw [@find?_replaceFirst _ hid (fun h =>
            let s : Int :=
              (streakValue (setCompleted (ensureDate C today) today hid) hid today : Int)
            { h with streak := s, bestStreak := max h.bestStreak s }) (fun x => rfl),
          @find?_replaceFirst hs hid (fun h =>
            { h with totalCompletions := h.totalCompletions + 1 }) (fun x => rfl),
          hfind]
        simp
      have hc2 : isCompleted (ensureDate (setCompleted (ensureDate C today) today hid)
          today) today hid = true := by
        rw [ensureDate_of_hasDate hhd]
        exact isCompleted_setCompleted_self hL1has
      rw [toggle_known_completed _ _ hid today hfind2 hc2]
      constructor
      · dsimp only
        rw [ensureDate_of_hasDate hhd, isCompleted_removeCompleted_self, ← hiso]
      · dsimp only
        refine map_replaceFirst_comp3 _ (fun x => rfl) (fun x => rfl) ?_
        intro x hx hxid
        rcases hcons x hx hxid with ⟨hx0, _⟩
        show (x.id, max 0 (x.totalCompletions + 1 - 1)) = (x.id, x.totalCompletions)
        have hmax : max 0 (x.totalCompletions + 1 - 1) = x.totalCompletions := by omega
        rw [hmax]

/-- Witness for C4 (amended): a consistent state (completed today with
counter 1) returns to completion state `true` and counter list `[(1, 1)]`
after a double toggle. -/
theorem toggle_twice_restores_witness :
    isCompleted (toggleHabitCompletion (toggleHabitCompletion
        { habits := [{ id := 1, name := "a", category := "c", target := 1,
                       frequency := "daily", selectedDays := [0, 1, 2, 3, 4, 5, 6],
                       createdAt := 0, streak := 1, bestStreak := 1,
                       totalCompletions := 1 }],
          completions := [(0, [1])] } 1 0) 1 0).completions 0 1 =
      isCompleted [(0, [1])] 0 1 ∧
    (toggleHabitCompletion (toggleHabitCompletion
        { habits := [{ id := 1, name := "a", category := "c", target := 1,
                       frequency := "daily", selectedDays := [0, 1, 2, 3, 4, 5, 6],
                       createdAt := 0, streak := 1, bestStreak := 1,
                       totalCompletions := 1 }],
          completions := [(0, [1])] } 1 0) 1 0).habits.map
        (fun h => (h.id, h.totalCompletions)) =
      ([{ id := 1, name := "a", category := "c", target := 1,
          frequency := "daily", selectedDays := [0, 1, 2, 3, 4, 5, 6],
          createdAt := 0, streak := 1, bestStreak := 1,
          totalCompletions := 1 }] : List Habit).map
        (fun h => (h.id, h.totalCompletions)) :=
  toggle_twice_restores
    { habits := [{ id := 1, name := "a", category := "c", target := 1,
                   frequency := "daily", selectedDays := [0, 1, 2, 3, 4, 5, 6],
                   createdAt := 0, streak := 1, bestStreak := 1,
                   totalCompletions := 1 }],
      completions := [(0, [1])] } 1 0 (by decide)

/-! ### Correlation symmetry and diagonal -/

lemma zipMulSum_comm : ∀ xs ys : List ℚ,
    ((xs.zip ys).map (fun p => p.1 * p.2)).sum =
      ((ys.zip xs).map (fun p => p.1 * p.2)).sum := by
  intro xs
  induction xs with
  | nil =>
    intro ys
    cases ys <;> simp
  | cons a t ih =>
    intro ys
    cases ys with
    | nil => simp
    | cons b u =>
      simp only [List.zip_cons_cons, List.map_cons, List.sum_cons, ih u]
      ring_nf

/-- **C5**: the Pearson coefficient of `calculateCorrelation` is symmetric in
its two habit ids — for every square-root function, ledger and date range —
and every diagonal entry of the heatmap's correlation matrix is 1 (the code
pushes the constant 1 whenever the two habit ids coincide). -/
theorem correlation_symmetric_diag_one (sq : ℚ → ℚ) (L : Ledger) (a b : Nat)
    (dates : List Int) (hs : List Habit) (i : Nat) (hi : i < hs.length) :
    calculateCorrelation sq L a b dates = calculateCorrelation sq L b a dates ∧
    ((correlationMatrix sq L hs dates).getD i []).getD i 0 = 1 := by
  constructor
  · simp only [calculateCorrelation]
    by_cases hn : dates.length = 0
    · simp [hn]
    · simp only [hn, if_false]
      rw [zipMulSum_comm]
      generalize (dates.map (fun d => if isCompleted L d a then (1 : ℚ) else 0)).sum = sa
      generalize (dates.map (fun d => if isCompleted L d b then (1 : ℚ) else 0)).sum = sb
      generalize ((dates.map (fun d => if isCompleted L d a then (1 : ℚ) else 0)).map
        (fun x => x * x)).sum = qa
      generalize ((dates.map (fun d => if isCompleted L d b then (1 : ℚ) else 0)).map
        (fun x => x * x)).sum = qb
      generalize (((dates.map (fun d => if isCompleted L d b then (1 : ℚ) else 0)).zip
        (dates.map (fun d => if isCompleted L d a then (1 : ℚ) else 0))).map
        (fun p => p.1 * p.2)).sum = p
      rw [mul_comm (qa - sa * sa / (dates.length : ℚ)) (qb - sb * sb / (dates.length : ℚ)),
        mul_comm sa sb]
  · unfold correlationMatrix
    rw [List.getD_eq_getElem?_getD, List.getD_eq_getElem?_getD]
    simp [List.getElem?_map, List.getElem?_eq_getElem hi]

/-- Witness for C5: two habits over a two-day range, both completed on day 0
only; the coefficient is symmetric and the 2×2 matrix's first diagonal entry
is 1 (with the identity standing in for an arbitrary square root). -/
theorem correlation_symmetric_diag_one_witness :
    calculateCorrelation id [(0, [1, 2])] 1 2 [0, 1] =
      calculateCorrelation id [(0, [1, 2])] 2 1 [0, 1] ∧
    ((correlationMatrix id [(0, [1, 2])]
        [{ id := 1, name := "a", category := "c", target := 1,
           frequency := "daily", selectedDays := [0, 1, 2, 3, 4, 5, 6],
           createdAt := 0, streak := 0, bestStreak := 0, totalCompletions := 1 },
         { id := 2, name := "b", category := "c", target := 1,
           frequency := "daily", selectedDays := [0, 1, 2, 3, 4, 5, 6],
           createdAt := 0, streak := 0, bestStreak := 0, totalCompletions := 1 }]
        [0, 1]).getD 0 []).getD 0 0 = 1 :=
  correlation_symmetric_diag_one id [(0, [1, 2])] 1 2 [0, 1]
    [{ id := 1, name := "a", category := "c", target := 1,
       frequency := "daily", selectedDays := [0, 1, 2, 3, 4, 5, 6],
       createdAt := 0, streak := 0, bestStreak := 0, totalCompletions := 1 },
     { id := 2, name := "b", category := "c", target := 1,
       frequency := "daily", selectedDays := [0, 1, 2, 3, 4, 5, 6],
       createdAt := 0, streak := 0, bestStreak := 0, totalCompletions := 1 }]
    0 (by norm_num)

end HabitFlow
